import Mathlib

/-!
# Weather-API forecast aggregation: a shallow embedding

This file embeds the forecast-aggregation core of the `weather-api` Go
repository in Lean 4 and proves/refutes the claims of its specification.

Modelling choices:
* Go `float64` temperatures and coordinates are modelled as `ℚ`.  The claims
  only compare, minimise and maximise temperatures, and every concrete value
  in the specification is a short decimal literal, on which rational and
  IEEE-754 comparisons agree.
* `*time.Time` values produced by `time.Parse("2006-01-02", _)` are calendar
  dates at midnight UTC; `time.Time.Equal` on them is calendar-date equality.
  They are modelled by the `Date` structure (`Option Date` stands for a
  possibly-nil `*time.Time`).
* Go maps are modelled as association lists with last-write-wins insertion
  (`mapInsert`); iteration order is irrelevant to every claim.
* The network/JSON layers are outside the claims: each adapter is embedded
  from the point where its upstream response has been decoded into the Go
  struct (`WeatherAPIResponse.List` / the `daily` object), which is exactly
  the data the cited code operates on.
-/

namespace WeatherAPIRepo

/-- A calendar date, the meaning of a Go `time.Time` parsed with layout
`"2006-01-02"` (midnight UTC, so `Equal` is component equality). -/
structure Date where
  year : ℕ
  month : ℕ
  day : ℕ
  deriving DecidableEq, Repr

/-- Total order key for dates: day ≤ 31 < 100 and month ≤ 12 < 100, so this
is calendar order for the dates `parseDate` can produce. -/
def Date.key (d : Date) : ℕ := d.year * 10000 + d.month * 100 + d.day

/-- `models.WeatherData`: one reduced day (`Date *time.Time; TempMax; TempMin`). -/
structure WeatherData where
  date : Option Date
  tempMax : ℚ
  tempMin : ℚ
  deriving DecidableEq, Repr

/-- `models.Response`: one day as produced by the `[]models.Response`-typed
open-meteo adapter (`Date string; TempMax; TempMin`). -/
structure Response where
  date : String
  tempMax : ℚ
  tempMin : ℚ
  deriving DecidableEq, Repr

/-- Leap-year rule used by Go's `time` package (proleptic Gregorian). -/
def isLeap (y : ℕ) : Bool := (y % 4 == 0 && y % 100 != 0) || y % 400 == 0

/-- Number of days in a month, as validated by Go's `time.Parse`. -/
def daysInMonth (y m : ℕ) : ℕ :=
  if m = 2 then (if isLeap y then 29 else 28)
  else if m = 4 ∨ m = 6 ∨ m = 9 ∨ m = 11 then 30
  else 31

def digit (c : Char) : ℕ := c.toNat - '0'.toNat

/-- Parse exactly ten characters as `YYYY-MM-DD` with Go's range validation.
For a ten-character input, Go's lenient numeric scanning of the layout
`"2006-01-02"` succeeds precisely on the zero-padded form (a one-digit
field would leave unconsumed trailing text, which `time.Parse` rejects). -/
def parseYMD (cs : List Char) : Option Date :=
  match cs with
  | [y1, y2, y3, y4, s1, m1, m2, s2, d1, d2] =>
    if y1.isDigit ∧ y2.isDigit ∧ y3.isDigit ∧ y4.isDigit ∧ s1 = '-' ∧
        m1.isDigit ∧ m2.isDigit ∧ s2 = '-' ∧ d1.isDigit ∧ d2.isDigit then
      let y := ((digit y1 * 10 + digit y2) * 10 + digit y3) * 10 + digit y4
      let m := digit m1 * 10 + digit m2
      let d := digit d1 * 10 + digit d2
      if 1 ≤ m ∧ m ≤ 12 ∧ 1 ≤ d ∧ d ≤ daysInMonth y m then some ⟨y, m, d⟩
      else none
    else none
  | _ => none

/-- `parseDate` in `weatherapi.go`: reject strings shorter than ten
characters, otherwise parse the first ten characters as `"2006-01-02"`. -/
def parseDate (dateStr : String) : Except String Date :=
  if dateStr.length < 10 then
    .error ("invalid date string: " ++ dateStr)
  else
    match parseYMD (dateStr.toList.take 10) with
    | some d => .ok d
    | none => .error ("failed to parse date " ++ dateStr)

/-- The condition `wd.Date != nil && date != nil && wd.Date.Equal(*date)`. -/
def dateMatches (a b : Option Date) : Bool :=
  match a, b with
  | some x, some y => x == y
  | _, _ => false

/-- `models.FilterByDate`: index of the first entry whose (non-nil) date
equals the given (non-nil) date, `-1` if there is none. -/
def FilterByDate : List WeatherData → Option Date → Int
  | [], _ => -1
  | wd :: rest, date =>
    if dateMatches wd.date date then 0
    else
      let r := FilterByDate rest date
      if r = -1 then -1 else r + 1

/-- One sub-daily sample of the decoded `WeatherAPIResponse.List`
(`DtTxt string; Main.TempMin; Main.TempMax`; the numeric `Dt` field is
never read by the reduction). -/
structure WItem where
  dtTxt : String
  tempMin : ℚ
  tempMax : ℚ
  deriving DecidableEq, Repr

/-- Loop body of `dailyTemperaturesWeatherAPI`: look the date up in the
accumulator; append a fresh entry if absent, otherwise fold the sample's
temperatures into the existing entry with the two `if` updates. -/
def insertSample (acc : List WeatherData) (d : Date) (mn mx : ℚ) :
    List WeatherData :=
  let idx := FilterByDate acc (some d)
  if idx = -1 then
    acc ++ [⟨some d, mx, mn⟩]
  else
    match acc.get? idx.toNat with
    | none => acc
    | some old =>
      let old1 := if mn < old.tempMin then { old with tempMin := mn } else old
      let old2 := if mx > old1.tempMax then { old1 with tempMax := mx } else old1
      acc.set idx.toNat old2

/-- The `for _, item := range response.List` loop of
`dailyTemperaturesWeatherAPI`: a parse failure aborts the whole loop. -/
def dailyTempsLoop : List WeatherData → List WItem → Except String (List WeatherData)
  | acc, [] => .ok acc
  | acc, it :: rest =>
    match parseDate it.dtTxt with
    | .error e => .error ("failed to parse date from dt_txt " ++ it.dtTxt ++ ": " ++ e)
    | .ok d => dailyTempsLoop (insertSample acc d it.tempMin it.tempMax) rest

/-- `dailyTemperaturesWeatherAPI` in `weatherapi.go`. -/
def dailyTemperaturesWeatherAPI (items : List WItem) : Except String (List WeatherData) :=
  dailyTempsLoop [] items

/-- Capacity of a Go slice built from `nil` by `n` single-element `append`s
(capacity doubles whenever the length has reached it; all relevant slices
are far below the 256-element threshold where Go's growth rate changes). -/
def goAppendCap : ℕ → ℕ
  | 0 => 0
  | n + 1 => let c := goAppendCap n; if n < c then c else max 1 (2 * c)

/-- The zero `models.WeatherData` value (`nil` date pointer, zero temps):
what the backing array of an append-built slice holds beyond its length. -/
def zeroWeatherData : WeatherData := ⟨none, 0, 0⟩

/-- Go's slice expression `xs[:k]` on a slice built by repeated `append`:
in-range upper bounds truncate, bounds between length and capacity expose
zero-valued elements of the backing array, and larger bounds panic. -/
def goSlice (xs : List WeatherData) (k : ℕ) : Except String (List WeatherData) :=
  if k ≤ xs.length then .ok (xs.take k)
  else if k ≤ goAppendCap xs.length then
    .ok (xs ++ List.replicate (k - xs.length) zeroWeatherData)
  else .error "runtime error: slice bounds out of range"

/-- `WeatherAPIRepository.FetchForecast` in `weatherapi.go` from the point
where the response body has been decoded into `WeatherAPIResponse`: the
empty-list check, the per-date reduction, and the `dailyTemps[:forecastWindow]`
truncation (`.error` is a returned Go error or, for the slice bound, a panic). -/
def fetchForecastWeatherAPI (items : List WItem) (forecastWindow : ℕ) :
    Except String (List WeatherData) :=
  if items.length = 0 then .error "no forecast data available"
  else
    match dailyTemperaturesWeatherAPI items with
    | .error e => .error ("failed to process daily temperatures: " ++ e)
    | .ok dailyTemps => goSlice dailyTemps forecastWindow

/-- The decoded `daily` object of an open-meteo response. -/
structure OpenMeteoDaily where
  time : List String
  temperature2mMax : List ℚ
  temperature2mMin : List ℚ
  deriving DecidableEq, Repr

/-- `minLength` computation of `openmeteo.go` (three sequential narrowings). -/
def omMinLength (daily : OpenMeteoDaily) : ℕ :=
  let m1 := daily.time.length
  let m2 := if daily.temperature2mMax.length < m1 then daily.temperature2mMax.length else m1
  if daily.temperature2mMin.length < m2 then daily.temperature2mMin.length else m2

/-- Row `i` of the open-meteo conversion loop: skipped (with a warning) when
`temperature_2m_max[i] < temperature_2m_min[i]`, kept otherwise.  All calls
have `i < omMinLength daily`, so the `getD` defaults are never read. -/
def omRow (daily : OpenMeteoDaily) (i : ℕ) : Option Response :=
  let mx := daily.temperature2mMax.getD i 0
  let mn := daily.temperature2mMin.getD i 0
  if mx < mn then none
  else some ⟨daily.time.getD i "", mx, mn⟩

/-- `OpenMeteoRepository.FetchForecast` in `openmeteo.go` from the point where
the body has been decoded: the empty-`time` check, the `minLength` check, and
the validating conversion loop. -/
def fetchForecastOpenMeteo (daily : OpenMeteoDaily) : Except String (List Response) :=
  if daily.time.length = 0 then .error "no forecast data available"
  else if omMinLength daily = 0 then .error "insufficient temperature data available"
  else .ok ((List.range (omMinLength daily)).filterMap (omRow daily))

deriving instance DecidableEq for Except

/-- Outcome of one repository's `FetchForecast` call as observed by the
aggregator: the repository's `Name()` and either a forecast or an error. -/
structure RepoRun where
  name : String
  outcome : Except String (List Response)
  deriving DecidableEq, Repr

/-- Go map assignment `m[k] = v`: overwrite the existing entry, else append. -/
def mapInsert (m : List (String × List Response)) (k : String) (v : List Response) :
    List (String × List Response) :=
  match m with
  | [] => [(k, v)]
  | (k', v') :: rest => if k' = k then (k, v) :: rest else (k', v') :: mapInsert rest k v

/-- Go map read `m[k]`. -/
def mapLookup (m : List (String × List Response)) (k : String) : Option (List Response) :=
  match m with
  | [] => none
  | (k', v') :: rest => if k' = k then some v' else mapLookup rest k

/-- The collection phase of `FetchForecasts` in
`internal/services/weather/weather.go` (the placeholder variant): each
goroutine writes, under the mutex, `results[name] = []` on failure and
`results[name] = forecast` on success.  `order` is the order in which the
goroutines acquire the mutex — an arbitrary permutation of the repositories. -/
def collectA (order : List RepoRun) : List (String × List Response) :=
  order.foldl
    (fun m r =>
      match r.outcome with
      | .ok f => mapInsert m r.name f
      | .error _ => mapInsert m r.name []) []

/-- `FetchForecasts` of `weather.go` (placeholder variant): after the wait,
`if len(results) == 0 { return nil, nil }`; otherwise the map with no error.
The pair is (returned map — `none` is Go's `nil` map —, returned error). -/
def fetchForecastsA (order : List RepoRun) :
    Option (List (String × List Response)) × Option String :=
  let results := collectA order
  if results.length = 0 then (none, none) else (some results, none)

/-- The collection phase of the `FetchForecasts` variant embedded in
`internal/models/WeatherData.go`: failures only log a warning, so only
successful repositories write into the map. -/
def collectB (order : List RepoRun) : List (String × List Response) :=
  order.foldl
    (fun m r =>
      match r.outcome with
      | .ok f => mapInsert m r.name f
      | .error _ => m) []

/-- The `FetchForecasts` variant of `WeatherData.go`: when the map stayed
empty it returns `nil, errors.New("no results found")`, otherwise the map. -/
def fetchForecastsB (order : List RepoRun) :
    Option (List (String × List Response)) × Option String :=
  let results := collectB order
  if results.length = 0 then (none, some "no results found") else (some results, none)

/-- `defaultForecastWindow` in `handle.go`. -/
def defaultForecastWindow : ℤ := 5

/-- `maxForecastWindow` in `handle.go` (the doc comment advertises 14, the
constant is 5). -/
def maxForecastWindow : ℤ := 5

/-- `validateParameters` in `internal/controllers/http/v1/handle.go`.
`pf` models `strconv.ParseFloat` and `pint` models `strconv.Atoi` (total Go
functions returning a value or an error; their numeric behaviour is
abstracted because the claims concern only the validator's decision logic).
Fiber's `c.Query` returns `""` for an absent parameter, so `""` encodes
"missing". -/
def validateParameters (pf : String → Option ℚ) (pint : String → Option ℤ)
    (latStr lonStr daysStr : String) : Except String (ℚ × ℚ × ℤ) :=
  if latStr = "" then .error "missing required parameter: lat"
  else if lonStr = "" then .error "missing required parameter: lon"
  else
    match pf latStr with
    | none => .error ("invalid latitude format: " ++ latStr)
    | some lat =>
      match pf lonStr with
      | none => .error ("invalid longitude format: " ++ lonStr)
      | some lon =>
        if lat < -90 ∨ lat > 90 then .error "latitude must be between -90 and 90"
        else if lon < -180 ∨ lon > 180 then .error "longitude must be between -180 and 180"
        else if daysStr = "" then .ok (lat, lon, defaultForecastWindow)
        else
          match pint daysStr with
          | none => .error ("invalid days parameter: " ++ daysStr)
          | some days =>
            if days < 1 ∨ days > maxForecastWindow then .error "days must be between 1 and 5"
            else .ok (lat, lon, days)

/-- `handleWeatherCall` in `handle.go`: a validation error yields 400
without invoking the service; otherwise `FetchForecasts` is invoked and an
error yields 500, success 200.  The second component records whether the
aggregator was invoked. -/
def handleWeatherCall (pf : String → Option ℚ) (pint : String → Option ℤ)
    (latStr lonStr daysStr : String)
    (service : ℚ → ℚ → ℤ → Option (List (String × List Response)) × Option String) :
    ℕ × Bool :=
  match validateParameters pf pint latStr lonStr daysStr with
  | .error _ => (400, false)
  | .ok (lat, lon, days) =>
    match (service lat lon days).2 with
    | some _ => (500, true)
    | none => (200, true)

/-! ## Helper definitions used only to state and prove properties -/

/-- The value a `weather.go` goroutine writes for its repository: the
forecast on success, the empty placeholder on failure. -/
def runValueA (r : RepoRun) : List Response :=
  match r.outcome with
  | .ok f => f
  | .error _ => []

/-- Whether a repository run succeeded. -/
def RepoRun.ok (r : RepoRun) : Prop := ∃ f, r.outcome = .ok f

/-- One collection step of the `weather.go` aggregator, as a named function
(shown below to agree with the literal fold body of `collectA`). -/
def stepA (m : List (String × List Response)) (r : RepoRun) :
    List (String × List Response) :=
  mapInsert m r.name (runValueA r)

/-- One collection step of the `WeatherData.go` aggregator variant. -/
def stepB (m : List (String × List Response)) (r : RepoRun) :
    List (String × List Response) :=
  match r.outcome with
  | .ok f => mapInsert m r.name f
  | .error _ => m

/-- The two temperature updates `dailyTemperaturesWeatherAPI` applies to an
existing entry for a date that is seen again. -/
def updSample (w : WeatherData) (mn mx : ℚ) : WeatherData :=
  let w1 := if mn < w.tempMin then { w with tempMin := mn } else w
  if mx > w1.tempMax then { w1 with tempMax := mx } else w1

/-- Structural restatement of `insertSample` (update the first entry whose
date matches, else append); proven equal to `insertSample` below. -/
def insertSampleSpec : List WeatherData → Date → ℚ → ℚ → List WeatherData
  | [], d, mn, mx => [⟨some d, mx, mn⟩]
  | w :: rest, d, mn, mx =>
    if w.date = some d then updSample w mn mx :: rest
    else w :: insertSampleSpec rest d mn mx

/-- The entry of a reduced day list for a given date (the first, and with
distinct dates the only, entry carrying that date). -/
def entryFor (acc : List WeatherData) (d : Date) : Option WeatherData :=
  acc.find? (fun w => w.date == some d)

/-- A reduced day list mentions each date at most once. -/
def noDupDates (l : List WeatherData) : Prop :=
  l.Pairwise (fun a b => a.date ≠ b.date)

/-- The sub-daily samples whose timestamp falls on date `d`. -/
def itemsOn (items : List WItem) (d : Date) : List WItem :=
  items.filter (fun it => decide (parseDate it.dtTxt = .ok d))

/-- Minimum of a list of rationals, folded left like the Go loop. -/
def listMinQ : List ℚ → Option ℚ
  | [] => none
  | x :: xs => some (xs.foldl min x)

/-- Maximum of a list of rationals, folded left like the Go loop. -/
def listMaxQ : List ℚ → Option ℚ
  | [] => none
  | x :: xs => some (xs.foldl max x)

/-- Calendar order on dates (lexicographic year, month, day). -/
def dateLt (a b : Date) : Prop :=
  a.year < b.year ∨
    (a.year = b.year ∧ (a.month < b.month ∨ (a.month = b.month ∧ a.day < b.day)))

/-- Non-strict calendar order on dates. -/
def dateLe (a b : Date) : Prop := dateLt a b ∨ a = b

instance (a b : Date) : Decidable (dateLt a b) := by unfold dateLt; infer_instance

instance (a b : Date) : Decidable (dateLe a b) := by unfold dateLe; infer_instance

/-- Strict calendar order on optional dates (`False` when either is nil). -/
def dLtO (a b : Option Date) : Prop :=
  ∃ x y, a = some x ∧ b = some y ∧ dateLt x y

/-- Strict date order between two reduced days. -/
def wLt (a b : WeatherData) : Prop := dLtO a.date b.date

/-- Strict lexicographic order on character lists (code-point order). -/
def strLtC : List Char → List Char → Bool
  | [], [] => false
  | [], _ :: _ => true
  | _ :: _, [] => false
  | a :: as, b :: bs =>
    if a.toNat < b.toNat then true
    else if b.toNat < a.toNat then false
    else strLtC as bs

/-- The `Response` day list is sorted by strictly ascending date string
(for ISO `YYYY-MM-DD` strings lexicographic order is calendar order). -/
def respAscending : List Response → Bool
  | [] => true
  | [_] => true
  | a :: b :: rest => strLtC a.date.toList b.date.toList && respAscending (b :: rest)

/-- Pairwise nondecreasing parsed dates of a sample list: the hypothesis
that the upstream reports its sub-daily samples in chronological order. -/
def samplesChronological (items : List WItem) : Prop :=
  items.Pairwise fun a b =>
    ∀ da db, parseDate a.dtTxt = .ok da → parseDate b.dtTxt = .ok db → dateLe da db

/-! ## Association-list (Go map) lemmas -/

theorem mapLookup_mapInsert (m : List (String × List Response)) (k k' : String)
    (v : List Response) :
    mapLookup (mapInsert m k v) k' = if k = k' then some v else mapLookup m k' := by
  induction m with
  | nil => simp [mapInsert, mapLookup]
  | cons h t ih =>
    obtain ⟨hk, hv⟩ := h
    simp only [mapInsert]
    by_cases h1 : hk = k
    · subst h1
      rw [if_pos rfl]
      by_cases h2 : hk = k' <;> simp [mapLookup, h2]
    · rw [if_neg h1]
      by_cases h2 : hk = k'
      · subst h2
        have h3 : ¬ k = hk := fun hh => h1 hh.symm
        simp [mapLookup, h3]
      · simp [mapLookup, h2, ih]

theorem mapInsert_ne_nil (m : List (String × List Response)) (k : String)
    (v : List Response) : mapInsert m k v ≠ [] := by
  cases m with
  | nil => simp [mapInsert]
  | cons h t => obtain ⟨hk, hv⟩ := h; simp only [mapInsert]; split <;> simp

theorem collectA_eq_foldl (order : List RepoRun) :
    collectA order = order.foldl stepA [] := by
  unfold collectA
  congr 1
  funext m r
  cases h : r.outcome <;> simp [stepA, runValueA, h]

theorem collectB_eq_foldl (order : List RepoRun) :
    collectB order = order.foldl stepB [] := rfl

theorem foldl_stepA_lookup_not_mem (order : List RepoRun)
    (m : List (String × List Response)) (k : String)
    (h : k ∉ order.map RepoRun.name) :
    mapLookup (order.foldl stepA m) k = mapLookup m k := by
  induction order generalizing m with
  | nil => rfl
  | cons r t ih =>
    simp only [List.map_cons, List.mem_cons, not_or] at h
    simp only [List.foldl_cons]
    rw [ih _ h.2, stepA, mapLookup_mapInsert, if_neg (fun hh => h.1 hh.symm)]

theorem foldl_stepA_lookup_mem (l1 : List RepoRun) (r : RepoRun) (l2 : List RepoRun)
    (m : List (String × List Response)) (h : r.name ∉ l2.map RepoRun.name) :
    mapLookup ((l1 ++ r :: l2).foldl stepA m) r.name = some (runValueA r) := by
  rw [List.foldl_append, List.foldl_cons, foldl_stepA_lookup_not_mem _ _ _ h,
    stepA, mapLookup_mapInsert]
  simp

theorem collectA_lookup_of_mem (order : List RepoRun)
    (hnd : (order.map RepoRun.name).Nodup) (r : RepoRun) (hr : r ∈ order) :
    mapLookup (collectA order) r.name = some (runValueA r) := by
  obtain ⟨s, t, rfl⟩ := List.append_of_mem hr
  have ht : r.name ∉ t.map RepoRun.name := by
    simp only [List.map_append, List.map_cons, List.nodup_append] at hnd
    exact (List.nodup_cons.mp hnd.2.1).1
  rw [collectA_eq_foldl]
  exact foldl_stepA_lookup_mem s r t [] ht

theorem foldl_stepA_isSome_iff (order : List RepoRun)
    (m : List (String × List Response)) (k : String) :
    (mapLookup (order.foldl stepA m) k).isSome ↔
      k ∈ order.map RepoRun.name ∨ (mapLookup m k).isSome := by
  induction order generalizing m with
  | nil => simp
  | cons r t ih =>
    simp only [List.foldl_cons, List.map_cons, List.mem_cons]
    rw [ih]
    have : mapLookup (stepA m r) k = if r.name = k then some (runValueA r) else mapLookup m k := by
      rw [stepA, mapLookup_mapInsert]
    by_cases hk : r.name = k
    · simp [this, hk]
    · have hk' : ¬ k = r.name := fun hh => hk hh.symm
      rw [this, if_neg hk]
      simp [hk', or_assoc]

theorem foldl_stepA_ne_nil (order : List RepoRun)
    (m : List (String × List Response)) (hm : m ≠ []) :
    order.foldl stepA m ≠ [] := by
  induction order generalizing m with
  | nil => exact hm
  | cons r t ih => exact ih _ (mapInsert_ne_nil _ _ _)

theorem collectA_eq_nil_iff (order : List RepoRun) :
    collectA order = [] ↔ order = [] := by
  cases order with
  | nil => simp [collectA]
  | cons r t =>
    rw [collectA_eq_foldl]
    simp only [List.foldl_cons]
    have := foldl_stepA_ne_nil t (stepA [] r) (mapInsert_ne_nil _ _ _)
    simp [this]

theorem foldl_stepB_eq_nil_iff (order : List RepoRun)
    (m : List (String × List Response)) :
    order.foldl stepB m = [] ↔ m = [] ∧ ∀ r ∈ order, ¬ r.ok := by
  induction order generalizing m with
  | nil => simp
  | cons r t ih =>
    simp only [List.foldl_cons, List.mem_cons]
    cases h : r.outcome with
    | ok f =>
      have hok : r.ok := ⟨f, h⟩
      simp only [stepB, h]
      rw [ih]
      simp [mapInsert_ne_nil, fun hh : ∀ x ∈ r :: t, ¬ x.ok => hh r (by simp) hok]
      intro h1 h2
      exact absurd hok h2
    | error e =>
      have hok : ¬ r.ok := by rintro ⟨f, hf⟩; rw [h] at hf; exact Except.noConfusion hf
      simp only [stepB, h]
      rw [ih]
      constructor
      · rintro ⟨h1, h2⟩
        refine ⟨h1, ?_⟩
        rintro x (rfl | hx)
        · exact hok
        · exact h2 x hx
      · rintro ⟨h1, h2⟩
        exact ⟨h1, fun x hx => h2 x (Or.inr hx)⟩

/-! ## Claim C1 -/

/-- C1, counterexample: with one configured provider that fails (so *every*
configured provider fails), `FetchForecasts` of `weather.go` returns the
placeholder aggregate `{"open-meteo": []}` with a `nil` error — it does not
return an error as the claim requires. -/
theorem claim1_counterexample :
    (∀ r ∈ [RepoRun.mk "open-meteo" (.error "connection refused")], ¬ r.ok) ∧
    fetchForecastsA [RepoRun.mk "open-meteo" (.error "connection refused")] =
      (some [("open-meteo", [])], none) := by
  constructor
  · intro r hr
    simp only [List.mem_singleton] at hr
    subst hr
    rintro ⟨f, hf⟩
    exact Except.noConfusion hf
  · rfl

/-- C1, amended: the `weather.go` variant of `FetchForecasts` never returns
an error (failed providers become empty placeholders; zero providers yield a
nil map and nil error); only the `WeatherData.go` variant returns an error,
and it does so exactly when zero providers succeed — whenever at least one
provider succeeds it returns the aggregate with no error. -/
theorem claim1_amended_error_policy (order : List RepoRun) :
    (fetchForecastsA order).2 = none ∧
    ((fetchForecastsB order).2 ≠ none ↔ ∀ r ∈ order, ¬ r.ok) ∧
    ((∃ r ∈ order, r.ok) →
      (fetchForecastsB order).1 ≠ none ∧ (fetchForecastsB order).2 = none) := by
  have key : ((collectB order).length = 0) ↔ ∀ r ∈ order, ¬ r.ok := by
    rw [List.length_eq_zero, collectB_eq_foldl, foldl_stepB_eq_nil_iff]
    simp
  refine ⟨?_, ?_, ?_⟩
  · simp only [fetchForecastsA]
    split <;> rfl
  · simp only [fetchForecastsB]
    by_cases h : (collectB order).length = 0
    · rw [if_pos h]
      simpa using key.mp h
    · rw [if_neg h]
      simp only [ne_eq, not_true_eq_false, false_iff]
      intro hall
      exact h (key.mpr hall)
  · rintro ⟨r, hr, hok⟩
    have h : ¬ (collectB order).length = 0 := fun h0 => (key.mp h0) r hr hok
    simp only [fetchForecastsB]
    rw [if_neg h]
    simp

/-- C1, witness for the amended theorem: with one succeeding provider the
`WeatherData.go` variant returns a non-nil aggregate and a nil error. -/
theorem claim1_amended_error_policy_witness :
    (fetchForecastsB [RepoRun.mk "weatherapi" (.ok [])]).1 ≠ none ∧
    (fetchForecastsB [RepoRun.mk "weatherapi" (.ok [])]).2 = none :=
  (claim1_amended_error_policy [RepoRun.mk "weatherapi" (.ok [])]).2.2
    ⟨RepoRun.mk "weatherapi" (.ok []), by simp, [], rfl⟩

/-! ## Claim C2 -/

/-- C2: whatever order the provider goroutines complete in (any permutation
of the configured repositories, with pairwise-distinct identities), each
successful provider's forecast appears unchanged in the aggregate under its
own identity key, and every key of the aggregate holds exactly the single
matching provider's own result (its forecast, or the empty placeholder when
it failed) — days of two providers are never combined under one key. -/
theorem claim2_successes_preserved (repos order : List RepoRun)
    (hperm : order.Perm repos) (hnd : (repos.map RepoRun.name).Nodup) :
    (∀ r ∈ repos, ∀ f, r.outcome = .ok f → mapLookup (collectA order) r.name = some f) ∧
    (∀ k v, mapLookup (collectA order) k = some v →
      ∃ r ∈ repos, r.name = k ∧ (r.outcome = .ok v ∨ (v = [] ∧ ¬ r.ok))) := by
  have hndo : (order.map RepoRun.name).Nodup := ((hperm.map RepoRun.name).nodup_iff).mpr hnd
  constructor
  · intro r hr f hf
    have hro : r ∈ order := hperm.mem_iff.mpr hr
    rw [collectA_lookup_of_mem order hndo r hro, runValueA, hf]
  · intro k v hv
    have hsome : (mapLookup (collectA order) k).isSome := by rw [hv]; rfl
    rw [collectA_eq_foldl, foldl_stepA_isSome_iff] at hsome
    have hnone : mapLookup [] k = none := rfl
    rw [hnone] at hsome
    simp only [Option.isSome_none, Bool.false_eq_true, or_false] at hsome
    obtain ⟨r, hro, hkr⟩ := List.mem_map.mp hsome
    have hlook := collectA_lookup_of_mem order hndo r hro
    rw [hkr, hv] at hlook
    have hveq : v = runValueA r := by
      injection hlook.symm with hh
      exact hh.symm
    refine ⟨r, hperm.mem_iff.mp hro, hkr, ?_⟩
    cases hout : r.outcome with
    | ok f =>
      left
      rw [hveq, runValueA, hout]
    | error e =>
      right
      refine ⟨by rw [hveq, runValueA, hout], ?_⟩
      rintro ⟨f, hf⟩
      rw [hout] at hf
      exact Except.noConfusion hf

/-- C2, witness: two providers, the first succeeding and the second failing,
completing in the reverse of their configuration order: the successful
forecast is found unchanged under its identity. -/
theorem claim2_successes_preserved_witness :
    mapLookup
      (collectA [RepoRun.mk "open-meteo" (.error "HTTP error (status 500)"),
                 RepoRun.mk "weatherapi" (.ok [Response.mk "2025-07-25" 22 19])])
      "weatherapi" = some [Response.mk "2025-07-25" 22 19] :=
  (claim2_successes_preserved
      [RepoRun.mk "weatherapi" (.ok [Response.mk "2025-07-25" 22 19]),
       RepoRun.mk "open-meteo" (.error "HTTP error (status 500)")]
      [RepoRun.mk "open-meteo" (.error "HTTP error (status 500)"),
       RepoRun.mk "weatherapi" (.ok [Response.mk "2025-07-25" 22 19])]
      (by decide) (by decide)).1
    (RepoRun.mk "weatherapi" (.ok [Response.mk "2025-07-25" 22 19])) (by simp)
    [Response.mk "2025-07-25" 22 19] rfl

/-! ## Claim C9 -/

/-- C9: for every completion order, the `weather.go` aggregate's key set is
exactly the set of configured repository names; with distinct names each
repository's key holds its forecast on success and the empty placeholder on
failure; the map is empty exactly when zero repositories are configured, in
which case the function returns a nil map and a nil error. -/
theorem claim9_key_set_and_placeholders (repos order : List RepoRun)
    (hperm : order.Perm repos) :
    (∀ k, (mapLookup (collectA order) k).isSome ↔ k ∈ repos.map RepoRun.name) ∧
    ((repos.map RepoRun.name).Nodup →
      ∀ r ∈ repos, mapLookup (collectA order) r.name = some (runValueA r)) ∧
    (collectA order = [] ↔ repos = []) ∧
    (repos = [] → fetchForecastsA order = (none, none)) := by
  refine ⟨?_, ?_, ?_, ?_⟩
  · intro k
    rw [collectA_eq_foldl, foldl_stepA_isSome_iff]
    have hnone : mapLookup [] k = none := rfl
    rw [hnone]
    simp only [Option.isSome_none, Bool.false_eq_true, or_false]
    exact (hperm.map RepoRun.name).mem_iff
  · intro hnd r hr
    exact collectA_lookup_of_mem order ((hperm.map RepoRun.name).nodup_iff.mpr hnd) r
      (hperm.mem_iff.mpr hr)
  · rw [collectA_eq_nil_iff]
    constructor
    · intro h
      subst h
      exact hperm.symm.eq_nil
    · intro h
      subst h
      exact hperm.eq_nil
  · intro h
    subst h
    rw [hperm.eq_nil]
    rfl

/-- C9, witness: one failing repository yields the placeholder entry under
its name. -/
theorem claim9_key_set_and_placeholders_witness :
    mapLookup (collectA [RepoRun.mk "open-meteo" (.error "timeout")]) "open-meteo" =
      some [] :=
  (claim9_key_set_and_placeholders [RepoRun.mk "open-meteo" (.error "timeout")]
      [RepoRun.mk "open-meteo" (.error "timeout")] (List.Perm.refl _)).2.1
    (by simp) (RepoRun.mk "open-meteo" (.error "timeout")) (by simp)

/-! ## Open-meteo adapter lemmas -/

theorem omMinLength_le_time (daily : OpenMeteoDaily) :
    omMinLength daily ≤ daily.time.length := by
  simp only [omMinLength]
  split_ifs <;> omega

theorem fetchForecastOpenMeteo_error_iff (daily : OpenMeteoDaily) :
    (∃ e, fetchForecastOpenMeteo daily = .error e) ↔
      (daily.time.length = 0 ∨ omMinLength daily = 0) := by
  unfold fetchForecastOpenMeteo
  split
  · simp_all
  · split <;> simp_all

/-! ## Claim C3 -/

/-- C3, counterexample: an open-meteo response with one aligned record whose
`temperature_2m_max` (15) is below its `temperature_2m_min` (20) — so the
reduction discards every record and yields zero valid days — makes
`FetchForecast` succeed with an empty day sequence instead of failing with a
no-data error. -/
theorem claim3_counterexample :
    fetchForecastOpenMeteo (OpenMeteoDaily.mk ["2025-01-27"] [15] [20]) = .ok [] ∧
    ¬ ∃ e, fetchForecastOpenMeteo (OpenMeteoDaily.mk ["2025-01-27"] [15] [20]) = .error e := by
  have h1 : fetchForecastOpenMeteo (OpenMeteoDaily.mk ["2025-01-27"] [15] [20]) = .ok [] := rfl
  refine ⟨h1, ?_⟩
  rintro ⟨e, he⟩
  rw [h1] at he
  exact Except.noConfusion he

/-- C3, amended: the open-meteo `FetchForecast` fails exactly when the
upstream response carries zero days or zero aligned temperature entries;
when the per-date reduction merely discards every record as malformed
(`max < min`), the call succeeds with an empty day sequence instead of
returning a no-data error. -/
theorem claim3_amended_no_data_policy (daily : OpenMeteoDaily) :
    ((∃ e, fetchForecastOpenMeteo daily = .error e) ↔
      (daily.time.length = 0 ∨ omMinLength daily = 0)) ∧
    (0 < omMinLength daily →
      (∀ i < omMinLength daily,
        daily.temperature2mMax.getD i 0 < daily.temperature2mMin.getD i 0) →
      fetchForecastOpenMeteo daily = .ok []) := by
  refine ⟨fetchForecastOpenMeteo_error_iff daily, ?_⟩
  intro hpos hbad
  have htime : ¬ daily.time.length = 0 := by
    have := omMinLength_le_time daily
    omega
  unfold fetchForecastOpenMeteo
  rw [if_neg htime, if_neg (by omega)]
  congr 1
  rw [List.filterMap_eq_nil_iff]
  intro i hi
  rw [List.mem_range] at hi
  simp only [omRow]
  rw [if_pos (hbad i hi)]

/-- C3, witness for the amended theorem: the all-records-malformed response
evaluates to a successful empty forecast. -/
theorem claim3_amended_no_data_policy_witness :
    fetchForecastOpenMeteo (OpenMeteoDaily.mk ["2025-01-26", "2025-01-27"] [15, 16] [20, 21]) =
      .ok [] :=
  (claim3_amended_no_data_policy
      (OpenMeteoDaily.mk ["2025-01-26", "2025-01-27"] [15, 16] [20, 21])).2
    (by decide) (by decide)

/-! ## Claim C4 -/

/-- C4, counterexample: the weatherapi adapter keeps a record whose reduced
`temperatureMax` (15) is strictly below its `temperatureMin` (20): with a
second, valid day present, the malformed day still appears in the returned
sequence. -/
theorem claim4_counterexample :
    fetchForecastWeatherAPI
        [WItem.mk "2025-07-25 12:00:00" 20 15, WItem.mk "2025-07-26 12:00:00" 10 12] 2 =
      .ok [WeatherData.mk (some (Date.mk 2025 7 25)) 15 20,
           WeatherData.mk (some (Date.mk 2025 7 26)) 12 10] ∧
    (WeatherData.mk (some (Date.mk 2025 7 25)) 15 20).tempMax <
      (WeatherData.mk (some (Date.mk 2025 7 25)) 15 20).tempMin := by
  constructor
  · rfl
  · norm_num

/-- C4, amended: the open-meteo adapter drops every record with
`temperatureMax < temperatureMin` (no returned day violates
`temperatureMin ≤ temperatureMax`, and the call still succeeds whenever at
least one aligned record exists); the weatherapi adapter performs no such
filtering — its reduction returns a malformed record unchanged. -/
theorem claim4_amended_filtering (daily : OpenMeteoDaily) :
    (∀ l, fetchForecastOpenMeteo daily = .ok l → ∀ w ∈ l, w.tempMin ≤ w.tempMax) ∧
    (0 < omMinLength daily → ∃ l, fetchForecastOpenMeteo daily = .ok l) ∧
    (∀ (s : String) (mn mx : ℚ) (d : Date), parseDate s = .ok d →
      dailyTemperaturesWeatherAPI [WItem.mk s mn mx] =
        .ok [WeatherData.mk (some d) mx mn]) := by
  refine ⟨?_, ?_, ?_⟩
  · intro l hl w hw
    unfold fetchForecastOpenMeteo at hl
    by_cases h0 : daily.time.length = 0
    · rw [if_pos h0] at hl
      exact Except.noConfusion hl
    · rw [if_neg h0] at hl
      by_cases h1 : omMinLength daily = 0
      · rw [if_pos h1] at hl
        exact Except.noConfusion hl
      · rw [if_neg h1] at hl
        have hl' : (List.range (omMinLength daily)).filterMap (omRow daily) = l := by
          injection hl
        rw [← hl'] at hw
        obtain ⟨i, _, hrow⟩ := List.mem_filterMap.mp hw
        simp only [omRow] at hrow
        split at hrow
        · exact Option.noConfusion hrow
        · rename_i hcond
          have hw' := Option.some.inj hrow
          rw [← hw']
          simpa using le_of_not_lt hcond
  · intro hpos
    have htime : ¬ daily.time.length = 0 := by
      have := omMinLength_le_time daily
      omega
    unfold fetchForecastOpenMeteo
    rw [if_neg htime, if_neg (by omega)]
    exact ⟨_, rfl⟩
  · intro s mn mx d hd
    simp [dailyTemperaturesWeatherAPI, dailyTempsLoop, hd, insertSample, FilterByDate]

/-- C4, witness for the amended theorem: a single malformed weatherapi
sample (min 20, max 15) survives the reduction unchanged. -/
theorem claim4_amended_filtering_witness :
    dailyTemperaturesWeatherAPI [WItem.mk "2025-07-25 12:00:00" 20 15] =
      .ok [WeatherData.mk (some (Date.mk 2025 7 25)) 15 20] :=
  (claim4_amended_filtering (OpenMeteoDaily.mk [] [] [])).2.2
    "2025-07-25 12:00:00" 20 15 (Date.mk 2025 7 25) (by decide)

/-! ## Claim C5 -/

/-- C5, code bug: when the weatherapi reduction yields fewer days than
`forecastWindow` the unconditional slice `dailyTemps[:forecastWindow]`
panics instead of returning the available days: three sub-daily samples on
one calendar date reduce to a single day of length and capacity 1, and the
request for 5 days evaluates to the slice-bounds panic. -/
theorem claim5_truncation_out_of_bounds :
    dailyTemperaturesWeatherAPI
        [WItem.mk "2025-07-25 15:00:00" 21 22,
         WItem.mk "2025-07-25 18:00:00" 22 23,
         WItem.mk "2025-07-25 21:00:00" 19 20] =
      .ok [WeatherData.mk (some (Date.mk 2025 7 25)) 23 19] ∧
    fetchForecastWeatherAPI
        [WItem.mk "2025-07-25 15:00:00" 21 22,
         WItem.mk "2025-07-25 18:00:00" 22 23,
         WItem.mk "2025-07-25 21:00:00" 19 20] 5 =
      .error "runtime error: slice bounds out of range" := by
  constructor <;> rfl

/-! ## Claim C10 -/

theorem dailyTempsLoop_error_of_bad (it : WItem) (e0 : String)
    (hbad : parseDate it.dtTxt = .error e0) (items : List WItem) :
    ∀ acc, it ∈ items → ∃ e, dailyTempsLoop acc items = .error e := by
  induction items with
  | nil => intro acc hit; simp at hit
  | cons h t ih =>
    intro acc hit
    cases hp : parseDate h.dtTxt with
    | error e =>
      exact ⟨"failed to parse date from dt_txt " ++ h.dtTxt ++ ": " ++ e,
        by simp [dailyTempsLoop, hp]⟩
    | ok d =>
      rcases List.mem_cons.mp hit with rfl | hit'
      · rw [hbad] at hp
        exact Except.noConfusion hp
      · rw [show dailyTempsLoop acc (h :: t) =
            dailyTempsLoop (insertSample acc d h.tempMin h.tempMax) t from by
          simp [dailyTempsLoop, hp]]
        exact ih _ hit'

/-- C10: if any sample's `dt_txt` fails `parseDate` (which by definition
happens exactly when the string is shorter than ten characters or its first
ten characters are not a valid `"2006-01-02"` date), the whole weatherapi
`FetchForecast` call fails with an error for every forecast window — the
malformed sample is not skipped, so the provider's other valid samples are
discarded for this request. -/
theorem claim10_bad_timestamp_fails_call (items : List WItem) (it : WItem) (e0 : String)
    (hit : it ∈ items) (hbad : parseDate it.dtTxt = .error e0) (k : ℕ) :
    ∃ e, fetchForecastWeatherAPI items k = .error e := by
  have hne : ¬ items.length = 0 := by
    cases items with
    | nil => simp at hit
    | cons h t => simp
  unfold fetchForecastWeatherAPI
  rw [if_neg hne]
  obtain ⟨e, he⟩ := dailyTempsLoop_error_of_bad it e0 hbad items [] hit
  unfold dailyTemperaturesWeatherAPI
  rw [he]
  exact ⟨_, rfl⟩

/-- C10, witness: one `"invalid-date"` sample makes the whole call fail even
though a second, valid sample is present. -/
theorem claim10_bad_timestamp_fails_call_witness :
    ∃ e, fetchForecastWeatherAPI
        [WItem.mk "invalid-date" 21 22, WItem.mk "2025-07-25 15:00:00" 19 20] 5 =
      .error e :=
  claim10_bad_timestamp_fails_call
    [WItem.mk "invalid-date" 21 22, WItem.mk "2025-07-25 15:00:00" 19 20]
    (WItem.mk "invalid-date" 21 22) "failed to parse date invalid-date"
    (by simp) (by decide) 5

/-! ## Claim C8 -/

/-- C8: the caller-side validator rejects a request exactly when `lat` or
`lon` is missing or unparseable, the parsed latitude is outside `[-90, 90]`,
the parsed longitude is outside `[-180, 180]`, or `days` is present and
unparseable or outside `[1, maxForecastWindow]`; when `days` is absent it
supplies the default 5; and a rejected request returns 400 without the
aggregator ever being invoked. -/
theorem claim8_validator_decision (pf : String → Option ℚ) (pint : String → Option ℤ)
    (latStr lonStr daysStr : String)
    (service : ℚ → ℚ → ℤ → Option (List (String × List Response)) × Option String) :
    ((∃ e, validateParameters pf pint latStr lonStr daysStr = .error e) ↔
      (latStr = "" ∨ lonStr = "" ∨ pf latStr = none ∨ pf lonStr = none ∨
        (∃ x, pf latStr = some x ∧ (x < -90 ∨ x > 90)) ∨
        (∃ y, pf lonStr = some y ∧ (y < -180 ∨ y > 180)) ∨
        (daysStr ≠ "" ∧ (pint daysStr = none ∨
          ∃ d, pint daysStr = some d ∧ (d < 1 ∨ d > maxForecastWindow))))) ∧
    (∀ lat lon, latStr ≠ "" → lonStr ≠ "" → pf latStr = some lat → pf lonStr = some lon →
      ¬(lat < -90 ∨ lat > 90) → ¬(lon < -180 ∨ lon > 180) → daysStr = "" →
      validateParameters pf pint latStr lonStr daysStr =
        .ok (lat, lon, defaultForecastWindow)) ∧
    (∀ e, validateParameters pf pint latStr lonStr daysStr = .error e →
      handleWeatherCall pf pint latStr lonStr daysStr service = (400, false)) := by
  refine ⟨?_, ?_, ?_⟩
  · by_cases h1 : latStr = ""
    · simp [validateParameters, h1]
    · by_cases h2 : lonStr = ""
      · simp [validateParameters, h1, h2]
      · cases hpl : pf latStr with
        | none => simp [validateParameters, h1, h2, hpl]
        | some lat =>
          cases hplon : pf lonStr with
          | none => simp [validateParameters, h1, h2, hpl, hplon]
          | some lon =>
            by_cases h3 : lat < -90 ∨ lat > 90
            · simp [validateParameters, h1, h2, hpl, hplon, h3]
            · by_cases h4 : lon < -180 ∨ lon > 180
              · simp [validateParameters, h1, h2, hpl, hplon, h3, h4]
              · by_cases h5 : daysStr = ""
                · simp [validateParameters, h1, h2, hpl, hplon, h3, h4, h5]
                · cases hd : pint daysStr with
                  | none => simp [validateParameters, h1, h2, hpl, hplon, h3, h4, h5, hd]
                  | some d =>
                    by_cases h6 : d < 1 ∨ d > maxForecastWindow
                    · simp [validateParameters, h1, h2, hpl, hplon, h3, h4, h5, hd, h6]
                    · simp [validateParameters, h1, h2, hpl, hplon, h3, h4, h5, hd, h6]
  · intro lat lon h1 h2 hpl hplon h3 h4 h5
    simp [validateParameters, h1, h2, hpl, hplon, h3, h4, h5]
  · intro e he
    simp [handleWeatherCall, he]

/-- C8, witness: a well-formed request with `days` absent is accepted with
the default window 5, and a request with `lat` missing is rejected. -/
theorem claim8_validator_decision_witness :
    validateParameters
        (fun s => if s = "40" then some 40 else if s = "-74" then some (-74) else none)
        (fun s => if s = "3" then some 3 else none) "40" "-74" "" =
      .ok (40, -74, defaultForecastWindow) ∧
    (∃ e, validateParameters
        (fun s => if s = "40" then some 40 else if s = "-74" then some (-74) else none)
        (fun s => if s = "3" then some 3 else none) "" "-74" "3" = .error e) := by
  constructor
  · exact (claim8_validator_decision
        (fun s => if s = "40" then some 40 else if s = "-74" then some (-74) else none)
        (fun s => if s = "3" then some 3 else none) "40" "-74" ""
        (fun _ _ _ => (none, none))).2.1 40 (-74)
      (by decide) (by decide) (by decide) (by decide) (by decide) (by decide) rfl
  · exact (claim8_validator_decision
        (fun s => if s = "40" then some 40 else if s = "-74" then some (-74) else none)
        (fun s => if s = "3" then some 3 else none) "" "-74" "3"
        (fun _ _ _ => (none, none))).1.mpr (Or.inl rfl)

/-! ## Structure of the weatherapi per-date reduction -/

theorem dateMatches_some_iff (a : Option Date) (d : Date) :
    dateMatches a (some d) = true ↔ a = some d := by
  cases a <;> simp [dateMatches]

theorem FilterByDate_neg_or_nonneg (acc : List WeatherData) (date : Option Date) :
    FilterByDate acc date = -1 ∨ 0 ≤ FilterByDate acc date := by
  induction acc with
  | nil => exact Or.inl rfl
  | cons w rest ih =>
    simp only [FilterByDate]
    by_cases hm : dateMatches w.date date
    · rw [if_pos hm]
      right
      norm_num
    · rw [if_neg hm]
      rcases ih with h | h
      · rw [h]
        left
        norm_num
      · rw [if_neg (by omega)]
        right
        omega

theorem insertSample_cons_match (w : WeatherData) (rest : List WeatherData)
    (d : Date) (mn mx : ℚ) (hw : w.date = some d) :
    insertSample (w :: rest) d mn mx = updSample w mn mx :: rest := by
  have hm : dateMatches w.date (some d) = true := (dateMatches_some_iff _ _).mpr hw
  have hFB : FilterByDate (w :: rest) (some d) = 0 := by
    simp [FilterByDate, hm]
  simp only [insertSample, hFB]
  norm_num [updSample]

theorem insertSample_cons_not_match (w : WeatherData) (rest : List WeatherData)
    (d : Date) (mn mx : ℚ) (hw : w.date ≠ some d) :
    insertSample (w :: rest) d mn mx = w :: insertSample rest d mn mx := by
  have hm : dateMatches w.date (some d) = false := by
    rcases hq : dateMatches w.date (some d) with _ | _
    · rfl
    · exact absurd ((dateMatches_some_iff _ _).mp hq) hw
  rcases FilterByDate_neg_or_nonneg rest (some d) with hr | hr
  · have hFB : FilterByDate (w :: rest) (some d) = -1 := by
      simp [FilterByDate, hm, hr]
    simp only [insertSample, hFB, hr]
    norm_num
  · obtain ⟨n, hn⟩ := Int.eq_ofNat_of_zero_le hr
    have hFB : FilterByDate (w :: rest) (some d) = n + 1 := by
      simp only [FilterByDate, hm, hn, Bool.false_eq_true, if_false]
      rw [if_neg (by omega)]
    simp only [insertSample, hFB, hn]
    rw [if_neg (by omega), if_neg (by omega)]
    have ht1 : ((n : ℤ) + 1).toNat = n + 1 := by omega
    have ht2 : ((n : ℤ)).toNat = n := by omega
    rw [ht1, ht2]
    simp only [List.get?_cons_succ]
    cases rest.get? n with
    | none => rfl
    | some old => simp [List.set]

theorem insertSample_eq_spec (acc : List WeatherData) (d : Date) (mn mx : ℚ) :
    insertSample acc d mn mx = insertSampleSpec acc d mn mx := by
  induction acc with
  | nil => rfl
  | cons w rest ih =>
    by_cases hw : w.date = some d
    · rw [insertSample_cons_match w rest d mn mx hw]
      simp [insertSampleSpec, hw]
    · rw [insertSample_cons_not_match w rest d mn mx hw]
      simp [insertSampleSpec, hw, ih]

theorem updSample_eq (w : WeatherData) (mn mx : ℚ) :
    updSample w mn mx = WeatherData.mk w.date (max w.tempMax mx) (min w.tempMin mn) := by
  obtain ⟨wd, wmax, wmin⟩ := w
  unfold updSample
  dsimp only
  split_ifs with h1 h2 h2
  · simp [WeatherData.mk.injEq, max_eq_right (le_of_lt h2), min_eq_right (le_of_lt h1)]
  · simp [WeatherData.mk.injEq, max_eq_left (le_of_not_lt h2), min_eq_right (le_of_lt h1)]
  · simp [WeatherData.mk.injEq, max_eq_right (le_of_lt h2), min_eq_left (le_of_not_lt h1)]
  · simp [WeatherData.mk.injEq, max_eq_left (le_of_not_lt h2), min_eq_left (le_of_not_lt h1)]

theorem entryFor_nil (d : Date) : entryFor [] d = none := rfl

theorem entryFor_cons (w : WeatherData) (rest : List WeatherData) (d : Date) :
    entryFor (w :: rest) d = if w.date = some d then some w else entryFor rest d := by
  by_cases hw : w.date = some d
  · rw [if_pos hw]
    exact List.find?_cons_of_pos _ (by simp [hw])
  · rw [if_neg hw]
    exact List.find?_cons_of_neg _ (by simp [hw])

theorem entryFor_insert_of_none (acc : List WeatherData) (d : Date) (mn mx : ℚ)
    (h : entryFor acc d = none) :
    entryFor (insertSampleSpec acc d mn mx) d = some (WeatherData.mk (some d) mx mn) := by
  induction acc with
  | nil => simp [insertSampleSpec, entryFor_cons, entryFor_nil]
  | cons w rest ih =>
    rw [entryFor_cons] at h
    by_cases hw : w.date = some d
    · rw [if_pos hw] at h
      exact Option.noConfusion h
    · rw [if_neg hw] at h
      simp only [insertSampleSpec, if_neg hw]
      rw [entryFor_cons, if_neg hw]
      exact ih h

theorem entryFor_insert_of_some (acc : List WeatherData) (d : Date) (mn mx : ℚ)
    (w0 : WeatherData) (h : entryFor acc d = some w0) :
    entryFor (insertSampleSpec acc d mn mx) d = some (updSample w0 mn mx) := by
  induction acc with
  | nil => rw [entryFor_nil] at h; exact Option.noConfusion h
  | cons w rest ih =>
    rw [entryFor_cons] at h
    by_cases hw : w.date = some d
    · rw [if_pos hw] at h
      have hww : w = w0 := Option.some.inj h
      subst hww
      simp only [insertSampleSpec, if_pos hw]
      rw [entryFor_cons, if_pos (by rw [updSample_eq]; exact hw)]
    · rw [if_neg hw] at h
      simp only [insertSampleSpec, if_neg hw]
      rw [entryFor_cons, if_neg hw]
      exact ih h

theorem entryFor_insert_other (acc : List WeatherData) (d : Date) (mn mx : ℚ)
    (d' : Date) (h : d' ≠ d) :
    entryFor (insertSampleSpec acc d mn mx) d' = entryFor acc d' := by
  induction acc with
  | nil =>
    rw [entryFor_nil]
    simp only [insertSampleSpec]
    rw [entryFor_cons, if_neg (fun hc => h (Option.some.inj hc).symm), entryFor_nil]
  | cons w rest ih =>
    by_cases hw : w.date = some d
    · simp only [insertSampleSpec, if_pos hw]
      rw [entryFor_cons, entryFor_cons, updSample_eq]
      have hcond : ¬ (w.date = some d') := by
        rw [hw]
        exact fun hc => h (Option.some.inj hc).symm
      simp [hcond]
    · simp only [insertSampleSpec, if_neg hw]
      rw [entryFor_cons, entryFor_cons, ih]

theorem mem_insertSampleSpec_date (acc : List WeatherData) (d : Date) (mn mx : ℚ)
    (b : WeatherData) (hb : b ∈ insertSampleSpec acc d mn mx) :
    b.date ∈ acc.map WeatherData.date ∨ b.date = some d := by
  induction acc with
  | nil =>
    simp only [insertSampleSpec, List.mem_singleton] at hb
    subst hb
    exact Or.inr rfl
  | cons w rest ih =>
    by_cases hw : w.date = some d
    · simp only [insertSampleSpec, if_pos hw, List.mem_cons] at hb
      rcases hb with rfl | hb
      · rw [updSample_eq]
        exact Or.inl (by simp)
      · exact Or.inl (by simp [List.mem_cons]; right; exact ⟨b, hb, rfl⟩)
    · simp only [insertSampleSpec, if_neg hw, List.mem_cons] at hb
      rcases hb with rfl | hb
      · exact Or.inl (by simp)
      · rcases ih hb with hmem | hd
        · left
          simp only [List.map_cons, List.mem_cons]
          exact Or.inr hmem
        · exact Or.inr hd

theorem noDupDates_insertSampleSpec (acc : List WeatherData) (d : Date) (mn mx : ℚ)
    (h : noDupDates acc) : noDupDates (insertSampleSpec acc d mn mx) := by
  induction acc with
  | nil => simp [insertSampleSpec, noDupDates]
  | cons w rest ih =>
    rw [noDupDates, List.pairwise_cons] at h
    by_cases hw : w.date = some d
    · simp only [insertSampleSpec, if_pos hw]
      rw [noDupDates, List.pairwise_cons]
      refine ⟨?_, h.2⟩
      intro b hb
      rw [updSample_eq]
      exact h.1 b hb
    · simp only [insertSampleSpec, if_neg hw]
      rw [noDupDates, List.pairwise_cons]
      refine ⟨?_, ih h.2⟩
      intro b hb
      rcases mem_insertSampleSpec_date rest d mn mx b hb with hmem | hd
      · obtain ⟨c, hc, hcd⟩ := List.mem_map.mp hmem
        rw [← hcd]
        exact h.1 c hc
      · rw [hd]
        exact hw

theorem isSome_insertSampleSpec (acc : List WeatherData) (d : Date) (mn mx : ℚ)
    (h : ∀ w ∈ acc, w.date.isSome) :
    ∀ b ∈ insertSampleSpec acc d mn mx, b.date.isSome := by
  intro b hb
  rcases mem_insertSampleSpec_date acc d mn mx b hb with hmem | hd
  · obtain ⟨c, hc, hcd⟩ := List.mem_map.mp hmem
    rw [← hcd]
    exact h c hc
  · rw [hd]
    rfl

theorem itemsOn_nil (d : Date) : itemsOn [] d = [] := rfl

theorem itemsOn_append (pre post : List WItem) (d : Date) :
    itemsOn (pre ++ post) d = itemsOn pre d ++ itemsOn post d := by
  simp [itemsOn, List.filter_append]

theorem itemsOn_singleton_of_ok (it : WItem) (d d0 : Date)
    (hp : parseDate it.dtTxt = .ok d0) :
    itemsOn [it] d = if d0 = d then [it] else [] := by
  by_cases hd : d0 = d
  · subst hd
    simp [itemsOn, List.filter, hp]
  · rw [if_neg hd]
    have : ¬ parseDate it.dtTxt = .ok d := by
      rw [hp]
      intro hc
      exact hd (Except.ok.inj hc)
    simp [itemsOn, List.filter, this]

theorem listMinQ_append_singleton (l : List ℚ) (x : ℚ) :
    listMinQ (l ++ [x]) =
      some (match listMinQ l with | none => x | some m => min m x) := by
  cases l with
  | nil => simp [listMinQ]
  | cons y ys => simp [listMinQ, List.foldl_append]

theorem listMaxQ_append_singleton (l : List ℚ) (x : ℚ) :
    listMaxQ (l ++ [x]) =
      some (match listMaxQ l with | none => x | some m => max m x) := by
  cases l with
  | nil => simp [listMaxQ]
  | cons y ys => simp [listMaxQ, List.foldl_append]

/-- Main invariant of the weatherapi reduction loop: after processing
`pre ++ items` the accumulator has exactly one entry per represented date,
holding the running minimum of `temp_min` and maximum of `temp_max` of the
samples on that date. -/
theorem dailyTempsLoop_characterization :
    ∀ (items pre : List WItem) (acc : List WeatherData),
      (∀ it ∈ items, ∃ d, parseDate it.dtTxt = .ok d) →
      noDupDates acc →
      (∀ d : Date,
        (entryFor acc d = none ↔ itemsOn pre d = []) ∧
        (∀ w, entryFor acc d = some w → w.date = some d ∧
          some w.tempMin = listMinQ ((itemsOn pre d).map WItem.tempMin) ∧
          some w.tempMax = listMaxQ ((itemsOn pre d).map WItem.tempMax))) →
      ∃ l, dailyTempsLoop acc items = .ok l ∧ noDupDates l ∧
        ∀ d : Date,
          (entryFor l d = none ↔ itemsOn (pre ++ items) d = []) ∧
          (∀ w, entryFor l d = some w → w.date = some d ∧
            some w.tempMin = listMinQ ((itemsOn (pre ++ items) d).map WItem.tempMin) ∧
            some w.tempMax = listMaxQ ((itemsOn (pre ++ items) d).map WItem.tempMax)) := by
  intro items
  induction items with
  | nil =>
    intro pre acc _ hnd hinv
    exact ⟨acc, rfl, hnd, fun d => by simpa using hinv d⟩
  | cons it rest ih =>
    intro pre acc hparse hnd hinv
    obtain ⟨d0, hp⟩ := hparse it (by simp)
    have hloop : dailyTempsLoop acc (it :: rest) =
        dailyTempsLoop (insertSampleSpec acc d0 it.tempMin it.tempMax) rest := by
      simp [dailyTempsLoop, hp, insertSample_eq_spec]
    have hinv' : ∀ d : Date,
        (entryFor (insertSampleSpec acc d0 it.tempMin it.tempMax) d = none ↔
          itemsOn (pre ++ [it]) d = []) ∧
        (∀ w, entryFor (insertSampleSpec acc d0 it.tempMin it.tempMax) d = some w →
          w.date = some d ∧
          some w.tempMin = listMinQ ((itemsOn (pre ++ [it]) d).map WItem.tempMin) ∧
          some w.tempMax = listMaxQ ((itemsOn (pre ++ [it]) d).map WItem.tempMax)) := by
      intro d
      rcases hinv d with ⟨hiffd, hvald⟩
      by_cases hd : d = d0
      · subst hd
        rw [itemsOn_append, itemsOn_singleton_of_ok it d d hp, if_pos rfl]
        constructor
        · cases he : entryFor acc d with
          | none =>
            rw [entryFor_insert_of_none acc d _ _ he]
            simp
          | some w0 =>
            rw [entryFor_insert_of_some acc d _ _ w0 he]
            simp
        · intro w hw
          cases he : entryFor acc d with
          | none =>
            rw [entryFor_insert_of_none acc d _ _ he] at hw
            have hw' := Option.some.inj hw
            subst hw'
            have hempty : itemsOn pre d = [] := hiffd.mp he
            rw [hempty]
            exact ⟨rfl, by simp [listMinQ], by simp [listMaxQ]⟩
          | some w0 =>
            rw [entryFor_insert_of_some acc d _ _ w0 he] at hw
            have hw' := Option.some.inj hw
            subst hw'
            obtain ⟨hdate0, hmin0, hmax0⟩ := hvald w0 he
            rw [updSample_eq]
            refine ⟨by simp [hdate0], ?_, ?_⟩
            · rw [List.map_append,
                show List.map WItem.tempMin [it] = [it.tempMin] from rfl,
                listMinQ_append_singleton, ← hmin0]
            · rw [List.map_append,
                show List.map WItem.tempMax [it] = [it.tempMax] from rfl,
                listMaxQ_append_singleton, ← hmax0]
      · rw [itemsOn_append, itemsOn_singleton_of_ok it d d0 hp,
          if_neg (fun hc => hd hc.symm), List.append_nil,
          entryFor_insert_other acc d0 _ _ d hd]
        exact ⟨hiffd, hvald⟩
    obtain ⟨l, hl, hlnd, hprop⟩ := ih (pre ++ [it])
      (insertSampleSpec acc d0 it.tempMin it.tempMax)
      (fun x hx => hparse x (by simp [hx]))
      (noDupDates_insertSampleSpec acc d0 _ _ hnd) hinv'
    refine ⟨l, by rw [hloop]; exact hl, hlnd, ?_⟩
    intro d
    rw [List.append_cons pre it rest]
    exact hprop d

/-! ## Claim C6 -/

/-- C6: for every list of sub-daily samples whose timestamps all parse, the
reduction groups samples by calendar date with exactly one entry per date
(`noDupDates`), and the entry for date `d` carries the minimum of the
`temp_min` values and the maximum of the `temp_max` values of the samples on
`d`; in particular the three 2025-07-25 samples of the specification reduce
to the single day `{temperatureMin 19.88, temperatureMax 22.52}`. -/
theorem claim6_reduction_min_max (items : List WItem)
    (hparse : ∀ it ∈ items, ∃ d, parseDate it.dtTxt = .ok d) :
    (∃ l, dailyTemperaturesWeatherAPI items = .ok l ∧ noDupDates l ∧
      ∀ d : Date,
        (entryFor l d = none ↔ itemsOn items d = []) ∧
        (∀ w, entryFor l d = some w → w.date = some d ∧
          some w.tempMin = listMinQ ((itemsOn items d).map WItem.tempMin) ∧
          some w.tempMax = listMaxQ ((itemsOn items d).map WItem.tempMax))) ∧
    dailyTemperaturesWeatherAPI
        [WItem.mk "2025-07-25 15:00:00" 21.7 22.52,
         WItem.mk "2025-07-25 18:00:00" 21.77 21.91,
         WItem.mk "2025-07-25 21:00:00" 19.88 20.49] =
      .ok [WeatherData.mk (some (Date.mk 2025 7 25)) 22.52 19.88] := by
  constructor
  · have hinv0 : ∀ d : Date,
        (entryFor ([] : List WeatherData) d = none ↔ itemsOn [] d = []) ∧
        (∀ w, entryFor ([] : List WeatherData) d = some w → w.date = some d ∧
          some w.tempMin = listMinQ ((itemsOn [] d).map WItem.tempMin) ∧
          some w.tempMax = listMaxQ ((itemsOn [] d).map WItem.tempMax)) := by
      intro d
      refine ⟨by simp [entryFor_nil, itemsOn_nil], ?_⟩
      intro w hw
      rw [entryFor_nil] at hw
      exact Option.noConfusion hw
    obtain ⟨l, hl, hnd, hprop⟩ := dailyTempsLoop_characterization items [] []
      hparse (by simp [noDupDates]) hinv0
    exact ⟨l, hl, hnd, fun d => by simpa using hprop d⟩
  · have hp1 : parseDate "2025-07-25 15:00:00" = .ok (Date.mk 2025 7 25) := by decide
    have hp2 : parseDate "2025-07-25 18:00:00" = .ok (Date.mk 2025 7 25) := by decide
    have hp3 : parseDate "2025-07-25 21:00:00" = .ok (Date.mk 2025 7 25) := by decide
    have e1 : insertSample [] (Date.mk 2025 7 25) 21.7 22.52 =
        [WeatherData.mk (some (Date.mk 2025 7 25)) 22.52 21.7] := rfl
    have e2 : insertSample [WeatherData.mk (some (Date.mk 2025 7 25)) 22.52 21.7]
        (Date.mk 2025 7 25) 21.77 21.91 =
        [WeatherData.mk (some (Date.mk 2025 7 25)) 22.52 21.7] := by
      rw [insertSample_cons_match _ _ _ _ _ rfl, updSample_eq]
      norm_num [max_def, min_def]
    have e3 : insertSample [WeatherData.mk (some (Date.mk 2025 7 25)) 22.52 21.7]
        (Date.mk 2025 7 25) 19.88 20.49 =
        [WeatherData.mk (some (Date.mk 2025 7 25)) 22.52 19.88] := by
      rw [insertSample_cons_match _ _ _ _ _ rfl, updSample_eq]
      norm_num [max_def, min_def]
    simp only [dailyTemperaturesWeatherAPI, dailyTempsLoop, hp1, hp2, hp3, e1, e2, e3]

/-- C6, witness: the specification's three-sample example evaluated through
the general theorem. -/
theorem claim6_reduction_min_max_witness :
    dailyTemperaturesWeatherAPI
        [WItem.mk "2025-07-25 15:00:00" 21.7 22.52,
         WItem.mk "2025-07-25 18:00:00" 21.77 21.91,
         WItem.mk "2025-07-25 21:00:00" 19.88 20.49] =
      .ok [WeatherData.mk (some (Date.mk 2025 7 25)) 22.52 19.88] :=
  (claim6_reduction_min_max
      [WItem.mk "2025-07-25 15:00:00" 21.7 22.52,
       WItem.mk "2025-07-25 18:00:00" 21.77 21.91,
       WItem.mk "2025-07-25 21:00:00" 19.88 20.49]
      (by
        intro it hit
        simp only [List.mem_cons, List.not_mem_nil, or_false] at hit
        rcases hit with rfl | rfl | rfl
        · exact ⟨Date.mk 2025 7 25, by decide⟩
        · exact ⟨Date.mk 2025 7 25, by decide⟩
        · exact ⟨Date.mk 2025 7 25, by decide⟩)).2

/-! ## Order of the reduced days -/

theorem dateLt_of_le_of_ne (a b : Date) (hle : dateLe a b) (hne : a ≠ b) :
    dateLt a b := by
  rcases hle with h | rfl
  · exact h
  · exact absurd rfl hne

theorem insertSampleSpec_of_not_found (acc : List WeatherData) (d : Date) (mn mx : ℚ)
    (h : ∀ w ∈ acc, w.date ≠ some d) :
    insertSampleSpec acc d mn mx = acc ++ [WeatherData.mk (some d) mx mn] := by
  induction acc with
  | nil => rfl
  | cons w rest ih =>
    simp only [insertSampleSpec, if_neg (h w (by simp))]
    rw [ih (fun x hx => h x (by simp [hx]))]
    rfl

theorem insertSampleSpec_map_date_of_found (acc : List WeatherData) (d : Date)
    (mn mx : ℚ) (h : ∃ w ∈ acc, w.date = some d) :
    (insertSampleSpec acc d mn mx).map WeatherData.date =
      acc.map WeatherData.date := by
  induction acc with
  | nil => obtain ⟨w, hw, _⟩ := h; simp at hw
  | cons w rest ih =>
    by_cases hw : w.date = some d
    · simp only [insertSampleSpec, if_pos hw, List.map_cons, updSample_eq]
    · simp only [insertSampleSpec, if_neg hw, List.map_cons]
      obtain ⟨x, hx, hxd⟩ := h
      rcases List.mem_cons.mp hx with rfl | hx'
      · exact absurd hxd hw
      · rw [ih ⟨x, hx', hxd⟩]

theorem pairwise_insertSampleSpec (acc : List WeatherData) (d : Date) (mn mx : ℚ)
    (hsome : ∀ w ∈ acc, w.date.isSome)
    (hsorted : acc.Pairwise wLt)
    (hle : ∀ w ∈ acc, ∀ dw, w.date = some dw → dateLe dw d) :
    (insertSampleSpec acc d mn mx).Pairwise wLt := by
  by_cases hfound : ∃ w ∈ acc, w.date = some d
  · have hmap := insertSampleSpec_map_date_of_found acc d mn mx hfound
    have h2 : ((insertSampleSpec acc d mn mx).map WeatherData.date).Pairwise dLtO := by
      rw [hmap]
      exact List.pairwise_map.mpr hsorted
    have h3 : (insertSampleSpec acc d mn mx).Pairwise
        (fun a b => dLtO a.date b.date) := List.pairwise_map.mp h2
    exact h3.imp (fun hab => hab)
  · push_neg at hfound
    rw [insertSampleSpec_of_not_found acc d mn mx hfound, List.pairwise_append]
    refine ⟨hsorted, List.pairwise_singleton _ _, ?_⟩
    intro a ha b hb
    rw [List.mem_singleton] at hb
    subst hb
    obtain ⟨da, hda⟩ := Option.isSome_iff_exists.mp (hsome a ha)
    have hne : da ≠ d := fun hdd => hfound a ha (hdd ▸ hda)
    exact ⟨da, d, hda, rfl, dateLt_of_le_of_ne da d (hle a ha da hda) hne⟩

theorem dailyTempsLoop_ok_all_parse (items : List WItem) (acc : List WeatherData)
    (l : List WeatherData) (hok : dailyTempsLoop acc items = .ok l) :
    ∀ it ∈ items, ∃ d, parseDate it.dtTxt = .ok d := by
  intro it hit
  cases hp : parseDate it.dtTxt with
  | ok d => exact ⟨d, rfl⟩
  | error e =>
    obtain ⟨e', he'⟩ := dailyTempsLoop_error_of_bad it e hp items acc hit
    rw [hok] at he'
    exact Except.noConfusion he'

theorem dailyTempsLoop_isSome (items : List WItem) :
    ∀ (acc l : List WeatherData), (∀ w ∈ acc, w.date.isSome) →
      dailyTempsLoop acc items = .ok l → ∀ w ∈ l, w.date.isSome := by
  induction items with
  | nil =>
    intro acc l hacc hok
    have : acc = l := Except.ok.inj hok
    exact this ▸ hacc
  | cons it rest ih =>
    intro acc l hacc hok
    cases hp : parseDate it.dtTxt with
    | error e => simp [dailyTempsLoop, hp] at hok
    | ok d0 =>
      rw [show dailyTempsLoop acc (it :: rest) =
          dailyTempsLoop (insertSampleSpec acc d0 it.tempMin it.tempMax) rest from by
        simp [dailyTempsLoop, hp, insertSample_eq_spec]] at hok
      exact ih _ l (isSome_insertSampleSpec acc d0 _ _ hacc) hok

theorem dailyTempsLoop_noDupDates (items : List WItem) :
    ∀ (acc l : List WeatherData), noDupDates acc →
      dailyTempsLoop acc items = .ok l → noDupDates l := by
  induction items with
  | nil =>
    intro acc l hacc hok
    have : acc = l := Except.ok.inj hok
    exact this ▸ hacc
  | cons it rest ih =>
    intro acc l hacc hok
    cases hp : parseDate it.dtTxt with
    | error e => simp [dailyTempsLoop, hp] at hok
    | ok d0 =>
      rw [show dailyTempsLoop acc (it :: rest) =
          dailyTempsLoop (insertSampleSpec acc d0 it.tempMin it.tempMax) rest from by
        simp [dailyTempsLoop, hp, insertSample_eq_spec]] at hok
      exact ih _ l (noDupDates_insertSampleSpec acc d0 _ _ hacc) hok

theorem dailyTempsLoop_sorted (items : List WItem) :
    ∀ (acc l : List WeatherData),
      (∀ w ∈ acc, w.date.isSome) →
      acc.Pairwise wLt →
      (∀ w ∈ acc, ∀ dw, w.date = some dw →
        ∀ it ∈ items, ∀ di, parseDate it.dtTxt = .ok di → dateLe dw di) →
      samplesChronological items →
      dailyTempsLoop acc items = .ok l →
      l.Pairwise wLt := by
  induction items with
  | nil =>
    intro acc l _ hsorted _ _ hok
    have : acc = l := Except.ok.inj hok
    exact this ▸ hsorted
  | cons it rest ih =>
    intro acc l hsome hsorted hfront hchr hok
    cases hp : parseDate it.dtTxt with
    | error e => simp [dailyTempsLoop, hp] at hok
    | ok d0 =>
      rw [show dailyTempsLoop acc (it :: rest) =
          dailyTempsLoop (insertSampleSpec acc d0 it.tempMin it.tempMax) rest from by
        simp [dailyTempsLoop, hp, insertSample_eq_spec]] at hok
      obtain ⟨hchrhead, hchrtail⟩ := List.pairwise_cons.mp hchr
      refine ih _ l (isSome_insertSampleSpec acc d0 _ _ hsome)
        (pairwise_insertSampleSpec acc d0 _ _ hsome hsorted
          (fun w hw dw hdw => hfront w hw dw hdw it (by simp) d0 hp))
        ?_ hchrtail hok
      intro w hw dw hdw it' hit' di hdi
      rcases mem_insertSampleSpec_date acc d0 _ _ w hw with hmem | hd
      · obtain ⟨c, hc, hcd⟩ := List.mem_map.mp hmem
        exact hfront c hc dw (by rw [hcd, hdw]) it' (by simp [hit']) di hdi
      · have hdw0 : dw = d0 := by
          rw [hd] at hdw
          exact (Option.some.inj hdw).symm
        subst hdw0
        exact hchrhead it' hit' dw di hp hdi

/-! ## Claim C7 -/

/-- C7, counterexample: a single always-succeeding open-meteo provider whose
upstream lists 2025-07-26 before 2025-07-25 yields an aggregate with exactly
one key, but a day sequence that is *not* sorted by ascending date — the
days appear in upstream order. -/
theorem claim7_counterexample :
    fetchForecastsA [RepoRun.mk "open-meteo"
        (fetchForecastOpenMeteo
          (OpenMeteoDaily.mk ["2025-07-26", "2025-07-25"] [21, 22] [20, 19]))] =
      (some [("open-meteo",
        [Response.mk "2025-07-26" 21 20, Response.mk "2025-07-25" 22 19])], none) ∧
    respAscending [Response.mk "2025-07-26" 21 20, Response.mk "2025-07-25" 22 19] =
      false := by
  constructor
  · rfl
  · decide

/-- C7, amended: with a single always-succeeding provider the aggregate has
exactly one key equal to the provider's identity holding its forecast
unchanged; the weatherapi reduction guarantees one entry per calendar date
(no duplicate dates, every entry dated), and its day sequence is sorted by
strictly ascending date provided the upstream samples are listed in
chronological (nondecreasing-date) order — in general the days appear in
first-appearance order of their dates. -/
theorem claim7_amended_single_provider (name : String) (f : List Response)
    (items : List WItem) (l : List WeatherData) :
    fetchForecastsA [RepoRun.mk name (.ok f)] = (some [(name, f)], none) ∧
    (dailyTemperaturesWeatherAPI items = .ok l →
      noDupDates l ∧ (∀ w ∈ l, w.date.isSome) ∧
      (samplesChronological items → l.Pairwise wLt)) := by
  constructor
  · rfl
  · intro hok
    refine ⟨dailyTempsLoop_noDupDates items [] l (by simp [noDupDates]) hok,
      dailyTempsLoop_isSome items [] l (by simp) hok, ?_⟩
    intro hchr
    exact dailyTempsLoop_sorted items [] l (by simp) (by simp) (by simp) hchr hok

/-- C7, witness for the amended theorem: a one-provider aggregate and a
one-sample reduction with distinct, dated entries. -/
theorem claim7_amended_single_provider_witness :
    fetchForecastsA [RepoRun.mk "weatherapi" (.ok [])] =
      (some [("weatherapi", [])], none) ∧
    noDupDates [WeatherData.mk (some (Date.mk 2025 7 25)) 20 19] :=
  ⟨(claim7_amended_single_provider "weatherapi" [] [] []).1,
   ((claim7_amended_single_provider "weatherapi" []
       [WItem.mk "2025-07-25 12:00:00" 19 20]
       [WeatherData.mk (some (Date.mk 2025 7 25)) 20 19]).2 rfl).1⟩

end WeatherAPIRepo
